import Mathlib

/-!
# Verification of the kernel-thread address-space borrow/release protocol

Shallow embedding of `src/mm/mmu_context.c` (`use_mm` / `unuse_mm`).

Address spaces (`struct mm_struct`) are identified by natural numbers.
Each call to `use_mm`/`unuse_mm` is modelled as the list of primitive
actions (`Event`s) the C function performs, in source order; the effect
on the state is obtained by folding a small interpreter (`applyEvent`)
over that trace.  Reference counts (`mm_count`) live in a map from
address-space identity to an integer so that underflow is expressible.
External collaborators (`membarrier_update_current_mm`, `switch_mm`,
`sync_mm_rss`, `enter_lazy_tlb`, the task lock, the barriers and the
post-lock-switch hook) do not modify the state modelled here; they are
recorded in the trace so that ordering, locking and barrier properties
can be stated.
-/

/-- A primitive action performed by `use_mm` / `unuse_mm`, in the order
the C source performs it. -/
inductive Event : Type where
  /-- `task_lock(tsk)` -/
  | lock : Event
  /-- `task_unlock(tsk)` -/
  | unlock : Event
  /-- `mmgrab(mm)`: increment `mm`'s reference count. -/
  | mmgrab : Nat → Event
  /-- `tsk->active_mm = mm` -/
  | set_active_mm : Nat → Event
  /-- `tsk->mm = mm` (or `NULL`, encoded as `none`) -/
  | set_mm : Option Nat → Event
  /-- `membarrier_update_current_mm(mm_or_null)` -/
  | membarrier_update : Option Nat → Event
  /-- `switch_mm(prev, next, tsk)` -/
  | switch_mm : Option Nat → Nat → Event
  /-- `finish_arch_post_lock_switch()` -/
  | post_lock_switch_hook : Event
  /-- `mmdrop(m)` on a present address space: decrement its count;
  acts as a full memory barrier. -/
  | mmdrop : Nat → Event
  /-- `mmdrop` invoked on an absent (`NULL`) previous space: the
  unguarded dereference, marked but modelled as leaving state alone. -/
  | mmdrop_absent : Event
  /-- `smp_mb()` -/
  | smp_mb : Event
  /-- `smp_mb__after_spinlock()` -/
  | smp_mb_after_spinlock : Event
  /-- `sync_mm_rss(mm)`: flush pending statistics into `mm`. -/
  | sync_mm_rss : Nat → Event
  /-- `enter_lazy_tlb(mm, tsk)` -/
  | enter_lazy_tlb : Nat → Event
deriving DecidableEq, Repr

/-- The fields of `struct task_struct` this code touches: `mm`
(the spec's `attached`) and `active_mm` (the spec's `retained`). -/
structure task_struct : Type where
  mm : Option Nat
  active_mm : Option Nat
deriving DecidableEq, Repr

/-- The state a single execution context acts on: its task fields plus
the reference count of every address space (`mm->mm_count`), keyed by
address-space identity. -/
structure MMState : Type where
  tsk : task_struct
  mm_count : Nat → Int

/-- Effect of one primitive action on the state.  Collaborator calls,
locking and barriers modify nothing modelled here. -/
def applyEvent (s : MMState) (e : Event) : MMState :=
  match e with
  | Event.mmgrab m =>
      { s with mm_count := fun x => if x = m then s.mm_count x + 1 else s.mm_count x }
  | Event.mmdrop m =>
      { s with mm_count := fun x => if x = m then s.mm_count x - 1 else s.mm_count x }
  | Event.set_active_mm m => { s with tsk := { s.tsk with active_mm := some m } }
  | Event.set_mm m => { s with tsk := { s.tsk with mm := m } }
  | _ => s

/-- Run a trace of primitive actions from a state. -/
def run (s : MMState) (tr : List Event) : MMState :=
  tr.foldl applyEvent s

/-- The trace of `use_mm(mm)` executed by a task in state `tsk`,
statement by statement from the source:

```
task_lock(tsk);
active_mm = tsk->active_mm;
if (active_mm != mm) { mmgrab(mm); tsk->active_mm = mm; }
tsk->mm = mm;
membarrier_update_current_mm(mm);
switch_mm(active_mm, mm, tsk);
task_unlock(tsk);
finish_arch_post_lock_switch();
if (active_mm != mm) mmdrop(active_mm); else smp_mb();
```
-/
def use_mm_trace (tsk : task_struct) (mm : Nat) : List Event :=
  let active_mm := tsk.active_mm
  [Event.lock]
    ++ (if active_mm ≠ some mm then
          [Event.mmgrab mm, Event.set_active_mm mm]
        else [])
    ++ [Event.set_mm (some mm),
        Event.membarrier_update (some mm),
        Event.switch_mm active_mm mm,
        Event.unlock,
        Event.post_lock_switch_hook]
    ++ (if active_mm ≠ some mm then
          (match active_mm with
           | some p => [Event.mmdrop p]
           | none => [Event.mmdrop_absent])
        else [Event.smp_mb])

/-- The trace of `unuse_mm(mm)`, statement by statement from the source:

```
task_lock(tsk);
smp_mb__after_spinlock();
sync_mm_rss(mm);
tsk->mm = NULL;
membarrier_update_current_mm(NULL);
enter_lazy_tlb(mm, tsk);
task_unlock(tsk);
```
-/
def unuse_mm_trace (mm : Nat) : List Event :=
  [Event.lock,
   Event.smp_mb_after_spinlock,
   Event.sync_mm_rss mm,
   Event.set_mm none,
   Event.membarrier_update none,
   Event.enter_lazy_tlb mm,
   Event.unlock]

/-- `use_mm` as a state transformer. -/
def use_mm (s : MMState) (mm : Nat) : MMState :=
  run s (use_mm_trace s.tsk mm)

/-- `unuse_mm` as a state transformer. -/
def unuse_mm (s : MMState) (mm : Nat) : MMState :=
  run s (unuse_mm_trace mm)

/-- A call a single execution context can make. -/
inductive Op : Type where
  | attach : Nat → Op
  | detach : Nat → Op
deriving DecidableEq, Repr

/-- Effect of one call. -/
def step (s : MMState) : Op → MMState
  | Op.attach mm => use_mm s mm
  | Op.detach mm => unuse_mm s mm

/-- Run a sequence of calls. -/
def runOps (s : MMState) (ops : List Op) : MMState :=
  ops.foldl step s

/-- A fresh kernel-thread context: no `mm`, no `active_mm`; reference
counts attributable to this context are all zero. -/
def initState : MMState :=
  { tsk := { mm := none, active_mm := none }, mm_count := fun _ => 0 }

/-- `e₁` occurs strictly before `e₂` in trace `tr` (at the given pair of
positions). -/
def Before (e₁ e₂ : Event) (tr : List Event) : Prop :=
  ∃ i j : Nat, i < j ∧ tr[i]? = some e₁ ∧ tr[j]? = some e₂

/-- Recognizes the `task_lock` action. -/
def isLockEv : Event → Bool
  | Event.lock => true
  | _ => false

/-- Recognizes the `task_unlock` action. -/
def isUnlockEv : Event → Bool
  | Event.unlock => true
  | _ => false

/-- The per-task lock is held just before position `i` of trace `tr`:
strictly more `task_lock`s than `task_unlock`s have occurred. -/
def lockHeldAt (tr : List Event) (i : Nat) : Prop :=
  (tr.take i).countP isUnlockEv < (tr.take i).countP isLockEv

instance (tr : List Event) (i : Nat) : Decidable (lockHeldAt tr i) :=
  Nat.decLt _ _

/-- Recognizes actions that change some reference count (`mmgrab` /
`mmdrop`), including the unguarded drop of an absent space. -/
def isCountEv : Event → Bool
  | Event.mmgrab _ => true
  | Event.mmdrop _ => true
  | Event.mmdrop_absent => true
  | _ => false

/-- Recognizes a full-memory-barrier action: an explicit `smp_mb` /
`smp_mb__after_spinlock`, or an `mmdrop` (whose atomic release acts as a
full barrier). -/
def isBarrierEv : Event → Bool
  | Event.smp_mb => true
  | Event.smp_mb_after_spinlock => true
  | Event.mmdrop _ => true
  | _ => false

/-- The single-context reference-count invariant: the count attributable
to the context is 1 on the retained space and 0 elsewhere. -/
def RefInv (s : MMState) : Prop :=
  ∀ m, s.mm_count m = if s.tsk.active_mm = some m then 1 else 0

/-! ## Branch-shape lemmas for the two functions -/

lemma use_mm_trace_same (tsk : task_struct) (mm : Nat)
    (h : tsk.active_mm = some mm) :
    use_mm_trace tsk mm =
      [Event.lock, Event.set_mm (some mm), Event.membarrier_update (some mm),
       Event.switch_mm (some mm) mm, Event.unlock, Event.post_lock_switch_hook,
       Event.smp_mb] := by
  simp [use_mm_trace, h]

lemma use_mm_trace_other (tsk : task_struct) (mm p : Nat)
    (hp : tsk.active_mm = some p) (hne : p ≠ mm) :
    use_mm_trace tsk mm =
      [Event.lock, Event.mmgrab mm, Event.set_active_mm mm, Event.set_mm (some mm),
       Event.membarrier_update (some mm), Event.switch_mm (some p) mm, Event.unlock,
       Event.post_lock_switch_hook, Event.mmdrop p] := by
  simp [use_mm_trace, hp, hne]

lemma use_mm_trace_absent (tsk : task_struct) (mm : Nat)
    (hp : tsk.active_mm = none) :
    use_mm_trace tsk mm =
      [Event.lock, Event.mmgrab mm, Event.set_active_mm mm, Event.set_mm (some mm),
       Event.membarrier_update (some mm), Event.switch_mm none mm, Event.unlock,
       Event.post_lock_switch_hook, Event.mmdrop_absent] := by
  simp [use_mm_trace, hp]

lemma use_mm_same (s : MMState) (mm : Nat) (h : s.tsk.active_mm = some mm) :
    use_mm s mm = { s with tsk := { s.tsk with mm := some mm } } := by
  simp [use_mm, use_mm_trace, run, applyEvent, h]

lemma use_mm_other (s : MMState) (mm p : Nat)
    (hp : s.tsk.active_mm = some p) (hne : p ≠ mm) :
    use_mm s mm =
      { tsk := { mm := some mm, active_mm := some mm },
        mm_count := fun x =>
          if x = p then (if x = mm then s.mm_count x + 1 else s.mm_count x) - 1
          else (if x = mm then s.mm_count x + 1 else s.mm_count x) } := by
  simp [use_mm, use_mm_trace, run, applyEvent, hp, hne]

lemma use_mm_absent (s : MMState) (mm : Nat) (hp : s.tsk.active_mm = none) :
    use_mm s mm =
      { tsk := { mm := some mm, active_mm := some mm },
        mm_count := fun x => if x = mm then s.mm_count x + 1 else s.mm_count x } := by
  simp [use_mm, use_mm_trace, run, applyEvent, hp]

lemma unuse_mm_state (s : MMState) (mm : Nat) :
    unuse_mm s mm = { s with tsk := { s.tsk with mm := none } } := by
  simp [unuse_mm, unuse_mm_trace, run, applyEvent]

lemma use_mm_active (s : MMState) (mm : Nat) :
    (use_mm s mm).tsk.active_mm = some mm := by
  rcases hact : s.tsk.active_mm with _ | p
  · rw [use_mm_absent s mm hact]
  · by_cases hpm : p = mm
    · rw [hpm] at hact
      rw [use_mm_same s mm hact]
      exact hact
    · rw [use_mm_other s mm p hact hpm]

lemma unuse_mm_active (s : MMState) (mm : Nat) :
    (unuse_mm s mm).tsk.active_mm = s.tsk.active_mm := by
  rw [unuse_mm_state]

/-! ## The reference-count invariant is preserved by every call -/

lemma refInv_init : RefInv initState := by
  intro m
  simp [initState]

lemma refInv_step (s : MMState) (op : Op) (h : RefInv s) : RefInv (step s op) := by
  cases op with
  | attach mm =>
    show RefInv (use_mm s mm)
    rcases hact : s.tsk.active_mm with _ | p
    · rw [use_mm_absent s mm hact]
      intro m
      have hm := h m
      rw [hact] at hm
      simp at hm
      simp only [Option.some.injEq]
      split_ifs <;> omega
    · by_cases hpm : p = mm
      · rw [hpm] at hact
        rw [use_mm_same s mm hact]
        intro m
        have hm := h m
        simpa [hact] using hm
      · rw [use_mm_other s mm p hact hpm]
        intro m
        have hm := h m
        rw [hact] at hm
        simp only [Option.some.injEq] at hm ⊢
        split_ifs at hm ⊢ <;> omega
  | detach mm =>
    show RefInv (unuse_mm s mm)
    rw [unuse_mm_state]
    intro m
    exact h m

lemma refInv_runOps (ops : List Op) :
    ∀ s : MMState, RefInv s → RefInv (runOps s ops) := by
  induction ops with
  | nil => intro s h; exact h
  | cons op ops ih =>
    intro s h
    exact ih (step s op) (refInv_step s op h)

/-! ## Claim theorems -/

/-- Claim C1: for every sequence of Attach (`use_mm`) and Detach
(`unuse_mm`) calls performed by a single execution context starting
fresh, the reference count attributable to that context on an address
space `m` is exactly 1 whenever the context's retained field
(`active_mm`) denotes `m`, is 0 whenever the retained field is absent,
and never goes negative. -/
theorem use_unuse_single_context_refcount (ops : List Op) (m : Nat) :
    ((runOps initState ops).tsk.active_mm = some m →
      (runOps initState ops).mm_count m = 1) ∧
    ((runOps initState ops).tsk.active_mm = none →
      (runOps initState ops).mm_count m = 0) ∧
    0 ≤ (runOps initState ops).mm_count m := by
  have hinv := refInv_runOps ops initState refInv_init m
  refine ⟨fun h => ?_, fun h => ?_, ?_⟩
  · rw [hinv, h]
    simp
  · rw [hinv, h]
    simp
  · rw [hinv]
    split <;> omega

/-- Witness for C1 at the concrete call sequence `[attach 0]`. -/
theorem use_unuse_single_context_refcount_witness :
    (runOps initState [Op.attach 0]).tsk.active_mm = some 0 ∧
    (runOps initState [Op.attach 0]).mm_count 0 = 1 :=
  ⟨by decide, (use_unuse_single_context_refcount [Op.attach 0] 0).1 (by decide)⟩

/-- Recognizes `mmdrop` on exactly the space `m`. -/
def dropsOf (m : Nat) : Event → Bool
  | Event.mmdrop p => p == m
  | _ => false

/-- Recognizes `mmgrab` on exactly the space `m`. -/
def grabsOf (m : Nat) : Event → Bool
  | Event.mmgrab p => p == m
  | _ => false

/-- Claim C2: in the sequence Attach(A), Detach, Attach(A) by one
context, the second Attach performs no reference-count operation at all
(in particular it does not re-acquire a reference on A), leaves every
reference count unchanged, and invokes the hardware switch with
`prev = next = A` at a point where the reference counts still equal
those at entry to the call. -/
theorem attach_after_detach_same_space_reuse (s : MMState) (A : Nat) :
    (∀ e ∈ use_mm_trace (unuse_mm (use_mm s A) A).tsk A, isCountEv e = false) ∧
    (use_mm (unuse_mm (use_mm s A) A) A).mm_count =
      (unuse_mm (use_mm s A) A).mm_count ∧
    (∃ i : Nat,
      (use_mm_trace (unuse_mm (use_mm s A) A).tsk A)[i]? =
        some (Event.switch_mm (some A) A) ∧
      (run (unuse_mm (use_mm s A) A)
          ((use_mm_trace (unuse_mm (use_mm s A) A).tsk A).take i)).mm_count =
        (unuse_mm (use_mm s A) A).mm_count) := by
  have hA : (unuse_mm (use_mm s A) A).tsk.active_mm = some A := by
    rw [unuse_mm_active, use_mm_active]
  refine ⟨?_, ?_, ?_⟩
  · intro e he
    rw [use_mm_trace_same _ _ hA] at he
    fin_cases he <;> rfl
  · rw [use_mm_same _ _ hA]
  · refine ⟨3, ?_, ?_⟩
    · rw [use_mm_trace_same _ _ hA]
      rfl
    · rw [use_mm_trace_same _ _ hA]
      rfl

/-- Claim C6: Detach clears the context's `attached` field (`tsk->mm`)
while leaving `retained` (`tsk->active_mm`) unchanged — so it still
denotes the previously attached space — and performs no reference-count
operation: every reference count is unchanged. -/
theorem detach_lazy_retention (s : MMState) (mm : Nat)
    (h1 : s.tsk.mm = some mm) (h2 : s.tsk.active_mm = some mm) :
    (unuse_mm s mm).tsk.mm = none ∧
    (unuse_mm s mm).tsk.active_mm = some mm ∧
    (unuse_mm s mm).tsk.active_mm = s.tsk.active_mm ∧
    (unuse_mm s mm).mm_count = s.mm_count ∧
    ∀ e ∈ unuse_mm_trace mm, isCountEv e = false := by
  refine ⟨?_, ?_, unuse_mm_active s mm, ?_, ?_⟩
  · rw [unuse_mm_state]
  · rw [unuse_mm_active]
    exact h2
  · rw [unuse_mm_state]
  · intro e he
    rw [unuse_mm_trace] at he
    fin_cases he <;> rfl

/-- Witness for C6 at the state reached by `use_mm` from a fresh
context. -/
theorem detach_lazy_retention_witness :
    (unuse_mm (use_mm initState 0) 0).tsk.mm = none ∧
    (unuse_mm (use_mm initState 0) 0).tsk.active_mm = some 0 :=
  ⟨(detach_lazy_retention (use_mm initState 0) 0 (by decide) (by decide)).1,
   (detach_lazy_retention (use_mm initState 0) 0 (by decide) (by decide)).2.1⟩

/-- Claim C8: two consecutive Attach(mm) calls with no intervening
Detach: the second call performs no reference-count operation, leaves
every reference count unchanged, and every hardware-switch invocation it
makes has equal `prev` and `next` arguments. -/
theorem attach_attach_same_space_idempotent (s : MMState) (mm : Nat) :
    (∀ e ∈ use_mm_trace (use_mm s mm).tsk mm, isCountEv e = false) ∧
    (use_mm (use_mm s mm) mm).mm_count = (use_mm s mm).mm_count ∧
    (∀ p : Option Nat, ∀ n : Nat,
      Event.switch_mm p n ∈ use_mm_trace (use_mm s mm).tsk mm → p = some n) := by
  have hA : (use_mm s mm).tsk.active_mm = some mm := use_mm_active s mm
  refine ⟨?_, ?_, ?_⟩
  · intro e he
    rw [use_mm_trace_same _ _ hA] at he
    fin_cases he <;> rfl
  · rw [use_mm_same _ _ hA]
  · intro p n hpn
    rw [use_mm_trace_same _ _ hA] at hpn
    simp at hpn
    rw [hpn.1, hpn.2]

/-- Claim C10: `use_mm`'s final `mmdrop(active_mm)` is unguarded: when
the context's retained space (`active_mm`) is absent at entry (hence
necessarily different from `mm`), the trace reaches the drop of an
absent previous space; when the retained space is present, that
ill-defined branch is unreachable. -/
theorem attach_unguarded_drop_precondition (s : MMState) (mm : Nat) :
    (s.tsk.active_mm = none →
      Event.mmdrop_absent ∈ use_mm_trace s.tsk mm) ∧
    (∀ p, s.tsk.active_mm = some p →
      Event.mmdrop_absent ∉ use_mm_trace s.tsk mm) := by
  constructor
  · intro h
    rw [use_mm_trace_absent _ _ h]
    simp
  · intro p hp
    by_cases hpm : p = mm
    · rw [hpm] at hp
      rw [use_mm_trace_same _ _ hp]
      simp
    · rw [use_mm_trace_other _ _ p hp hpm]
      simp

/-- Witness for C10: a fresh context has no retained space and the drop
of an absent space is reached; after one Attach the retained space is
present and it is not. -/
theorem attach_unguarded_drop_precondition_witness :
    Event.mmdrop_absent ∈ use_mm_trace initState.tsk 0 ∧
    Event.mmdrop_absent ∉ use_mm_trace (use_mm initState 0).tsk 1 :=
  ⟨(attach_unguarded_drop_precondition initState 0).1 (by decide),
   (attach_unguarded_drop_precondition (use_mm initState 0) 1).2 0 (by decide)⟩

/-- Claim C7: across the sequence Attach(A), Detach, Attach(B) with
`B ≠ A` by one context, exactly one `mmdrop` of A and exactly one
`mmgrab` of B occur in the combined event trace of the three calls. -/
theorem attach_detach_attach_other_space_counts (s : MMState) (A B : Nat)
    (hBA : B ≠ A) :
    ((use_mm_trace s.tsk A ++ unuse_mm_trace A ++
      use_mm_trace (unuse_mm (use_mm s A) A).tsk B).countP (dropsOf A) = 1) ∧
    ((use_mm_trace s.tsk A ++ unuse_mm_trace A ++
      use_mm_trace (unuse_mm (use_mm s A) A).tsk B).countP (grabsOf B) = 1) := by
  have h2act : (unuse_mm (use_mm s A) A).tsk.active_mm = some A := by
    rw [unuse_mm_active, use_mm_active]
  have hAB : A ≠ B := fun e => hBA e.symm
  rw [use_mm_trace_other _ _ A h2act hAB]
  rcases hact : s.tsk.active_mm with _ | p
  · rw [use_mm_trace_absent _ _ hact]
    constructor <;>
      simp [dropsOf, grabsOf, unuse_mm_trace, List.countP_append, List.countP_cons, hAB]
  · by_cases hpA : p = A
    · rw [hpA] at hact
      rw [use_mm_trace_same _ _ hact]
      constructor <;>
        simp [dropsOf, grabsOf, unuse_mm_trace, List.countP_append, List.countP_cons, hAB]
    · rw [use_mm_trace_other _ _ p hact hpA]
      constructor <;>
        simp [dropsOf, grabsOf, unuse_mm_trace, List.countP_append, List.countP_cons,
          hAB, hpA]

/-- Witness for C7 with A = 0, B = 1 from a fresh context. -/
theorem attach_detach_attach_other_space_counts_witness :
    ((use_mm_trace initState.tsk 0 ++ unuse_mm_trace 0 ++
      use_mm_trace (unuse_mm (use_mm initState 0) 0).tsk 1).countP (dropsOf 0) = 1) ∧
    ((use_mm_trace initState.tsk 0 ++ unuse_mm_trace 0 ++
      use_mm_trace (unuse_mm (use_mm initState 0) 0).tsk 1).countP (grabsOf 1) = 1) :=
  attach_detach_attach_other_space_counts initState 0 1 (by decide)

/-- Counterexample to claim C3 as stated: at the state reached by
Attach(0) then Detach — a state the protocol itself produces — the
context's attached field (`tsk->mm`) is absent and so differs from the
space 0 being attached, yet the subsequent Attach(0) performs no
reference-count increment, and the value it passes to the hardware
switch as `prev` is `some 0` (the retained field), not the attached
field's value. So `prev` is not the attached ("actively-attached")
space and its inequality with `mm` is not what triggers the increment. -/
theorem attach_prev_not_attached_field :
    (unuse_mm (use_mm initState 0) 0).tsk.mm ≠ some 0 ∧
    Event.switch_mm (unuse_mm (use_mm initState 0) 0).tsk.mm 0 ∉
      use_mm_trace (unuse_mm (use_mm initState 0) 0).tsk 0 ∧
    Event.mmgrab 0 ∉ use_mm_trace (unuse_mm (use_mm initState 0) 0).tsk 0 ∧
    Event.switch_mm (some 0) 0 ∈
      use_mm_trace (unuse_mm (use_mm initState 0) 0).tsk 0 := by
  decide

/-- Claim C3 as amended: the value `prev` that `use_mm` compares against
`mm` (and passes to the hardware switch) is the context's *retained*
space (`tsk->active_mm`), not its attached space; and whenever `prev`
differs from `mm`, `use_mm` increments `mm`'s reference count strictly
before the retained and attached fields are updated, and it ends with
both `attached` and `retained` equal to `mm`. When `prev` equals `mm`
no reference is acquired. -/
theorem attach_prev_is_retained (s : MMState) (mm : Nat) :
    Event.switch_mm s.tsk.active_mm mm ∈ use_mm_trace s.tsk mm ∧
    (s.tsk.active_mm = some mm →
      ∀ q, Event.mmgrab q ∉ use_mm_trace s.tsk mm) ∧
    (s.tsk.active_mm ≠ some mm →
      Event.mmgrab mm ∈ use_mm_trace s.tsk mm ∧
      Before (Event.mmgrab mm) (Event.set_active_mm mm) (use_mm_trace s.tsk mm) ∧
      Before (Event.mmgrab mm) (Event.set_mm (some mm)) (use_mm_trace s.tsk mm) ∧
      (use_mm s mm).tsk.mm = some mm ∧
      (use_mm s mm).tsk.active_mm = some mm) := by
  refine ⟨?_, ?_, ?_⟩
  · rcases hact : s.tsk.active_mm with _ | p
    · rw [use_mm_trace_absent _ _ hact]
      simp
    · by_cases hpm : p = mm
      · rw [hpm] at hact ⊢
        rw [use_mm_trace_same _ _ hact]
        simp
      · rw [use_mm_trace_other _ _ p hact hpm]
        simp
  · intro h q
    rw [use_mm_trace_same _ _ h]
    simp
  · intro h
    have hmm : (use_mm s mm).tsk.mm = some mm := by
      rcases hact : s.tsk.active_mm with _ | p
      · rw [use_mm_absent _ _ hact]
      · by_cases hpm : p = mm
        · rw [hpm] at hact
          exact absurd hact h
        · rw [use_mm_other _ _ p hact hpm]
    refine ⟨?_, ?_, ?_, hmm, use_mm_active s mm⟩ <;>
      rcases hact : s.tsk.active_mm with _ | p
    · rw [use_mm_trace_absent _ _ hact]
      simp
    · by_cases hpm : p = mm
      · rw [hpm] at hact
        exact absurd hact h
      · rw [use_mm_trace_other _ _ p hact hpm]
        simp
    · rw [use_mm_trace_absent _ _ hact]
      exact ⟨1, 2, by omega, rfl, rfl⟩
    · by_cases hpm : p = mm
      · rw [hpm] at hact
        exact absurd hact h
      · rw [use_mm_trace_other _ _ p hact hpm]
        exact ⟨1, 2, by omega, rfl, rfl⟩
    · rw [use_mm_trace_absent _ _ hact]
      exact ⟨1, 3, by omega, rfl, rfl⟩
    · by_cases hpm : p = mm
      · rw [hpm] at hact
        exact absurd hact h
      · rw [use_mm_trace_other _ _ p hact hpm]
        exact ⟨1, 3, by omega, rfl, rfl⟩

/-- Witness for the amended C3 at a fresh context attaching space 0. -/
theorem attach_prev_is_retained_witness :
    Event.mmgrab 0 ∈ use_mm_trace initState.tsk 0 ∧
    (use_mm initState 0).tsk.mm = some 0 ∧
    (use_mm initState 0).tsk.active_mm = some 0 := by
  have h := (attach_prev_is_retained initState 0).2.2 (by decide)
  exact ⟨h.1, h.2.2.2.1, h.2.2.2.2⟩

/-- Claim C4: every Attach issues a full memory barrier on the
transitioning context — via the `mmdrop` of `prev` (whose release acts
as a full barrier) when `prev` differed from `mm`, and via an explicit
`smp_mb` (and no drop at all) when `prev` equals `mm` — and every
Detach issues its own full barrier (`smp_mb__after_spinlock`). -/
theorem barrier_on_attach_detach (s : MMState) (mm : Nat) :
    (∀ p, s.tsk.active_mm = some p → p ≠ mm →
      Event.mmdrop p ∈ use_mm_trace s.tsk mm ∧
      Event.smp_mb ∉ use_mm_trace s.tsk mm) ∧
    (s.tsk.active_mm = some mm →
      Event.smp_mb ∈ use_mm_trace s.tsk mm ∧
      ∀ q, Event.mmdrop q ∉ use_mm_trace s.tsk mm) ∧
    (s.tsk.active_mm ≠ none →
      ∃ e ∈ use_mm_trace s.tsk mm, isBarrierEv e = true) ∧
    (Event.smp_mb_after_spinlock ∈ unuse_mm_trace mm ∧
      isBarrierEv Event.smp_mb_after_spinlock = true) := by
  refine ⟨?_, ?_, ?_, ?_⟩
  · intro p hp hpm
    rw [use_mm_trace_other _ _ p hp hpm]
    simp
  · intro h
    rw [use_mm_trace_same _ _ h]
    simp
  · intro h
    rcases hact : s.tsk.active_mm with _ | p
    · exact absurd hact h
    · by_cases hpm : p = mm
      · rw [hpm] at hact
        rw [use_mm_trace_same _ _ hact]
        exact ⟨Event.smp_mb, by simp, rfl⟩
      · rw [use_mm_trace_other _ _ p hact hpm]
        exact ⟨Event.mmdrop p, by simp, rfl⟩
  · exact ⟨by rw [unuse_mm_trace]; simp, rfl⟩

/-- Witness for C4: after Attach(0), re-attaching 0 issues `smp_mb`,
while attaching 1 issues `mmdrop 0`. -/
theorem barrier_on_attach_detach_witness :
    Event.mmdrop 0 ∈ use_mm_trace (use_mm initState 0).tsk 1 ∧
    Event.smp_mb ∈ use_mm_trace (use_mm initState 0).tsk 0 :=
  ⟨((barrier_on_attach_detach (use_mm initState 0) 1).1 0 (by decide) (by decide)).1,
   ((barrier_on_attach_detach (use_mm initState 0) 0).2.1 (by decide)).1⟩

/-- Claim C5: in every Detach, the full barrier
(`smp_mb__after_spinlock`) comes strictly after `task_lock` and
strictly before the statistics flush (`sync_mm_rss`), and the flush
happens while the context's attached field still denotes `mm`: at the
flush point the state still has `tsk.mm = some mm`, and the flush
precedes both the clearing of `tsk->mm` and the membarrier
publication. -/
theorem detach_barrier_flush_order (s : MMState) (mm : Nat)
    (h : s.tsk.mm = some mm) :
    Before Event.lock Event.smp_mb_after_spinlock (unuse_mm_trace mm) ∧
    Before Event.smp_mb_after_spinlock (Event.sync_mm_rss mm) (unuse_mm_trace mm) ∧
    (∃ i : Nat, (unuse_mm_trace mm)[i]? = some (Event.sync_mm_rss mm) ∧
      (run s ((unuse_mm_trace mm).take i)).tsk.mm = some mm) ∧
    Before (Event.sync_mm_rss mm) (Event.set_mm none) (unuse_mm_trace mm) ∧
    Before (Event.sync_mm_rss mm) (Event.membarrier_update none) (unuse_mm_trace mm) := by
  refine ⟨⟨0, 1, by omega, rfl, rfl⟩, ⟨1, 2, by omega, rfl, rfl⟩,
    ⟨2, rfl, ?_⟩, ⟨2, 3, by omega, rfl, rfl⟩, ⟨2, 4, by omega, rfl, rfl⟩⟩
  exact h

/-- Witness for C5 at the state reached by Attach(0) from a fresh
context. -/
theorem detach_barrier_flush_order_witness :
    (∃ i : Nat, (unuse_mm_trace 0)[i]? = some (Event.sync_mm_rss 0) ∧
      (run (use_mm initState 0) ((unuse_mm_trace 0).take i)).tsk.mm = some 0) :=
  (detach_barrier_flush_order (use_mm initState 0) 0 (by decide)).2.2.1

/-- Claim C9: the per-context lock is held at every hardware-switch
invocation and every membarrier notification in Attach and at the
statistics flush (and its membarrier notification) in Detach, while the
platform post-switch hook in Attach runs only after the lock has been
released — each such event in the traces occurs at a position where the
lock is (respectively is not) held, and an `unlock` precedes the hook. -/
theorem lock_discipline (s : MMState) (mm : Nat) :
    (Event.switch_mm s.tsk.active_mm mm ∈ use_mm_trace s.tsk mm ∧
     Event.membarrier_update (some mm) ∈ use_mm_trace s.tsk mm ∧
     Event.post_lock_switch_hook ∈ use_mm_trace s.tsk mm ∧
     Event.sync_mm_rss mm ∈ unuse_mm_trace mm ∧
     Event.membarrier_update none ∈ unuse_mm_trace mm) ∧
    (∀ i : Nat, ∀ p n, (use_mm_trace s.tsk mm)[i]? = some (Event.switch_mm p n) →
      lockHeldAt (use_mm_trace s.tsk mm) i) ∧
    (∀ i : Nat, ∀ o, (use_mm_trace s.tsk mm)[i]? = some (Event.membarrier_update o) →
      lockHeldAt (use_mm_trace s.tsk mm) i) ∧
    (∀ i : Nat, (use_mm_trace s.tsk mm)[i]? = some Event.post_lock_switch_hook →
      ¬ lockHeldAt (use_mm_trace s.tsk mm) i ∧
      ∃ j : Nat, j < i ∧ (use_mm_trace s.tsk mm)[j]? = some Event.unlock) ∧
    (∀ i : Nat, (unuse_mm_trace mm)[i]? = some (Event.sync_mm_rss mm) →
      lockHeldAt (unuse_mm_trace mm) i) ∧
    (∀ i : Nat, ∀ o, (unuse_mm_trace mm)[i]? = some (Event.membarrier_update o) →
      lockHeldAt (unuse_mm_trace mm) i) := by
  refine ⟨⟨?_, ?_, ?_, ?_, ?_⟩, ?_, ?_, ?_, ?_, ?_⟩
  · rcases hact : s.tsk.active_mm with _ | p
    · rw [use_mm_trace_absent _ _ hact]
      simp
    · by_cases hpm : p = mm
      · rw [hpm] at hact ⊢
        rw [use_mm_trace_same _ _ hact]
        simp
      · rw [use_mm_trace_other _ _ p hact hpm]
        simp
  · rcases hact : s.tsk.active_mm with _ | p
    · rw [use_mm_trace_absent _ _ hact]
      simp
    · by_cases hpm : p = mm
      · rw [hpm] at hact
        rw [use_mm_trace_same _ _ hact]
        simp
      · rw [use_mm_trace_other _ _ p hact hpm]
        simp
  · rcases hact : s.tsk.active_mm with _ | p
    · rw [use_mm_trace_absent _ _ hact]
      simp
    · by_cases hpm : p = mm
      · rw [hpm] at hact
        rw [use_mm_trace_same _ _ hact]
        simp
      · rw [use_mm_trace_other _ _ p hact hpm]
        simp
  · rw [unuse_mm_trace]
    simp
  · rw [unuse_mm_trace]
    simp
  · intro i p n hi
    rcases hact : s.tsk.active_mm with _ | q
    · rw [use_mm_trace_absent _ _ hact] at hi ⊢
      have hlen : i < 9 := by
        by_contra hge
        rw [List.getElem?_eq_none (by simp; omega)] at hi
        exact Option.noConfusion hi
      interval_cases i <;>
        simp_all [lockHeldAt, List.countP, List.countP.go, isLockEv, isUnlockEv]
    · by_cases hqm : q = mm
      · rw [hqm] at hact
        rw [use_mm_trace_same _ _ hact] at hi ⊢
        have hlen : i < 7 := by
          by_contra hge
          rw [List.getElem?_eq_none (by simp; omega)] at hi
          exact Option.noConfusion hi
        interval_cases i <;>
          simp_all [lockHeldAt, List.countP, List.countP.go, isLockEv, isUnlockEv]
      · rw [use_mm_trace_other _ _ q hact hqm] at hi ⊢
        have hlen : i < 9 := by
          by_contra hge
          rw [List.getElem?_eq_none (by simp; omega)] at hi
          exact Option.noConfusion hi
        interval_cases i <;>
          simp_all [lockHeldAt, List.countP, List.countP.go, isLockEv, isUnlockEv]
  · intro i o hi
    rcases hact : s.tsk.active_mm with _ | q
    · rw [use_mm_trace_absent _ _ hact] at hi ⊢
      have hlen : i < 9 := by
        by_contra hge
        rw [List.getElem?_eq_none (by simp; omega)] at hi
        exact Option.noConfusion hi
      interval_cases i <;>
        simp_all [lockHeldAt, List.countP, List.countP.go, isLockEv, isUnlockEv]
    · by_cases hqm : q = mm
      · rw [hqm] at hact
        rw [use_mm_trace_same _ _ hact] at hi ⊢
        have hlen : i < 7 := by
          by_contra hge
          rw [List.getElem?_eq_none (by simp; omega)] at hi
          exact Option.noConfusion hi
        interval_cases i <;>
          simp_all [lockHeldAt, List.countP, List.countP.go, isLockEv, isUnlockEv]
      · rw [use_mm_trace_other _ _ q hact hqm] at hi ⊢
        have hlen : i < 9 := by
          by_contra hge
          rw [List.getElem?_eq_none (by simp; omega)] at hi
          exact Option.noConfusion hi
        interval_cases i <;>
          simp_all [lockHeldAt, List.countP, List.countP.go, isLockEv, isUnlockEv]
  · intro i hi
    rcases hact : s.tsk.active_mm with _ | q
    · rw [use_mm_trace_absent _ _ hact] at hi ⊢
      have hlen : i < 9 := by
        by_contra hge
        rw [List.getElem?_eq_none (by simp; omega)] at hi
        exact Option.noConfusion hi
      interval_cases i <;>
        simp_all [lockHeldAt, List.countP, List.countP.go, isLockEv, isUnlockEv]
      exact ⟨6, by omega, rfl⟩
    · by_cases hqm : q = mm
      · rw [hqm] at hact
        rw [use_mm_trace_same _ _ hact] at hi ⊢
        have hlen : i < 7 := by
          by_contra hge
          rw [List.getElem?_eq_none (by simp; omega)] at hi
          exact Option.noConfusion hi
        interval_cases i <;>
          simp_all [lockHeldAt, List.countP, List.countP.go, isLockEv, isUnlockEv]
        exact ⟨4, by omega, rfl⟩
      · rw [use_mm_trace_other _ _ q hact hqm] at hi ⊢
        have hlen : i < 9 := by
          by_contra hge
          rw [List.getElem?_eq_none (by simp; omega)] at hi
          exact Option.noConfusion hi
        interval_cases i <;>
          simp_all [lockHeldAt, List.countP, List.countP.go, isLockEv, isUnlockEv]
        exact ⟨6, by omega, rfl⟩
  · intro i hi
    rw [unuse_mm_trace] at hi ⊢
    have hlen : i < 7 := by
      by_contra hge
      rw [List.getElem?_eq_none (by simp; omega)] at hi
      exact Option.noConfusion hi
    interval_cases i <;>
      simp_all [lockHeldAt, List.countP, List.countP.go, isLockEv, isUnlockEv]
  · intro i o hi
    rw [unuse_mm_trace] at hi ⊢
    have hlen : i < 7 := by
      by_contra hge
      rw [List.getElem?_eq_none (by simp; omega)] at hi
      exact Option.noConfusion hi
    interval_cases i <;>
      simp_all [lockHeldAt, List.countP, List.countP.go, isLockEv, isUnlockEv]

/-- Witness for C9 at a fresh context attaching space 0: the switch at
position 5 and the membarrier update at position 4 run with the lock
held; the hook at position 7 runs after the unlock; the Detach flush at
position 2 runs with the lock held. -/
theorem lock_discipline_witness :
    lockHeldAt (use_mm_trace initState.tsk 0) 5 ∧
    lockHeldAt (use_mm_trace initState.tsk 0) 4 ∧
    ¬ lockHeldAt (use_mm_trace initState.tsk 0) 7 ∧
    lockHeldAt (unuse_mm_trace 0) 2 :=
  ⟨(lock_discipline initState 0).2.1 5 none 0 (by decide),
   (lock_discipline initState 0).2.2.1 4 (some 0) (by decide),
   ((lock_discipline initState 0).2.2.2.1 7 (by decide)).1,
   (lock_discipline initState 0).2.2.2.2.1 2 (by decide)⟩

/-- Witness for C2 at a fresh context and space 0: the second Attach's
trace contains the switch with `prev = next = 0`, and its events (for
example the one at position 3) are not reference-count operations. -/
theorem attach_after_detach_same_space_reuse_witness :
    isCountEv (Event.switch_mm (some 0) 0) = false ∧
    (use_mm (unuse_mm (use_mm initState 0) 0) 0).mm_count =
      (unuse_mm (use_mm initState 0) 0).mm_count :=
  ⟨(attach_after_detach_same_space_reuse initState 0).1
      (Event.switch_mm (some 0) 0) (by decide),
   (attach_after_detach_same_space_reuse initState 0).2.1⟩

/-- Witness for C8 at a fresh context and space 0: the second Attach's
switch invocation has equal `prev` and `next`, and the reference counts
are unchanged. -/
theorem attach_attach_same_space_idempotent_witness :
    (some 0 : Option Nat) = some 0 ∧
    (use_mm (use_mm initState 0) 0).mm_count = (use_mm initState 0).mm_count :=
  ⟨(attach_attach_same_space_idempotent initState 0).2.2 (some 0) 0 (by decide),
   (attach_attach_same_space_idempotent initState 0).2.1⟩
